import Mathlib

/-
Verification of the Rostering_APP core against its specification.

Shallow embedding conventions:
  * A Python `datetime` is a number of minutes since an epoch, as an integer.
    The epoch (minute 0) is chosen to fall at 00:00 on a Monday, so that
    Python's `dt.weekday()` (Mon=0 .. Sun=6) is `(t / 1440) % 7` and
    `dt.hour` is `(t % 1440) / 60` (floor division, Euclidean mod).
  * A Python `date` is the day number `t / 1440` (floor).
  * Python's `dt.isocalendar()` returns an (iso_year, iso_week) pair; ISO
    weeks run Monday..Sunday, so two dates have equal (iso_year, iso_week)
    exactly when they lie in the same Monday-aligned week, i.e. when their
    day numbers have equal floor-quotient by 7.  We therefore key weeks by
    `day / 7`, which is in bijection with (iso_year, iso_week).
  * ISO-8601 date strings (used by the leave table) compare
    lexicographically exactly as the dates they denote compare
    chronologically, so leave-interval endpoints are embedded as day
    numbers compared with the integer order.
  * Machine integers are embedded as `Int` (Python ints are unbounded, so
    no wrap-around modelling is needed); fractional quantities (hours,
    burnout scores) as `Rat`, which models the exact real-number formulas
    the source writes with floats.
-/

namespace Rostering

/-- Minutes per calendar day. -/
def minutesPerDay : ℤ := 1440

/-- Python `dt.hour` for a minutes-since-epoch timestamp. -/
def hourOf (t : ℤ) : ℤ := (t.emod minutesPerDay).ediv 60

/-- Python `dt.date()` as a day number (floor of minutes by 1440). -/
def dateOf (t : ℤ) : ℤ := t.ediv minutesPerDay

/-- Python `dt.weekday()`: Mon=0 .. Sun=6 (epoch day 0 is a Monday). -/
def weekdayOf (day : ℤ) : ℤ := day.emod 7

/-- Canonical key of the ISO week containing a day (see header comment:
`day / 7` is in bijection with Python's `(iso_year, iso_week)`). -/
def weekKey (day : ℤ) : ℤ := day.ediv 7

-- ---------------------------------------------------------------------
-- core/models.py : the data model
-- ---------------------------------------------------------------------

/-- core/models.py `Doctor`. -/
structure Doctor where
  id : String
  name : String
  level : String
  firm : Option ℤ
  contract_hours_per_month : ℤ
  min_shifts_per_month : ℤ
  max_shifts_per_month : ℤ
deriving DecidableEq

/-- core/models.py `Shift`.  `start`/`end` are minutes since the epoch;
the Python field `end` is spelled `end_` because `end` is reserved. -/
structure Shift where
  id : String
  name : String
  start : ℤ
  end_ : ℤ
  is_weekend : Bool
  is_night : Bool
  intensity : ℤ
  min_doctors : ℤ
  max_doctors : ℤ
deriving DecidableEq

/-- core/models.py `Assignment`: a single (doctor, shift) pairing.  (The
optimizer variant also stores `shift_start`/`shift_end` copies; no claim
inspects them, and core/models.py carries only the two ids.) -/
structure Assignment where
  doctor_id : String
  shift_id : String
deriving DecidableEq

/-- core/models.py `Roster`. -/
structure Roster where
  doctors : List Doctor
  shifts : List Shift
  assignments : List Assignment
deriving DecidableEq

/-- The optimizer's `AssignmentResult` (imported from core.models by
core/optimizer.py): the assignment list produced by one solve. -/
structure AssignmentResult where
  assignments : List Assignment
deriving DecidableEq

/-- One row of the `leave_requests` table as the optimizer reads it
(`doctor_external_id`, `start_date`, `end_date`; dates as day numbers,
see the header comment on ISO date strings). -/
structure LeaveRow where
  doctor_external_id : String
  start_date : ℤ
  end_date : ℤ
deriving DecidableEq

/-- A shift's `duration_hours`, derived as in core/generate_shifts.py:
`(end - start).total_seconds() / 3600` (core/models.py omits the field;
the workload analyzer reads it from shift rows built this way). -/
def Shift.duration_hours (s : Shift) : ℚ := ((s.end_ - s.start : ℤ) : ℚ) / 60

-- ---------------------------------------------------------------------
-- core/optimizer.py : helpers
-- ---------------------------------------------------------------------

/-- core/optimizer.py `REST_HOURS = 11`. -/
def REST_HOURS : ℤ := 11

/-- core/optimizer.py `shifts_overlap`:
`not (end1 <= start2 or end2 <= start1)`. -/
def shifts_overlap (start1 end1 start2 end2 : ℤ) : Bool :=
  !(decide (end1 ≤ start2) || decide (end2 ≤ start1))

/-- core/optimizer.py `is_night_shift`:
start hour at or after 21:00, or end hour at or before 07:00. -/
def is_night_shift (s : Shift) : Bool :=
  decide (21 ≤ hourOf s.start) || decide (hourOf s.end_ ≤ 7)

-- ---------------------------------------------------------------------
-- core/optimizer.py : the constraint system of build_and_solve_roster
--
-- The PuLP model has one binary variable per (doctor id, shift id); a
-- candidate solution is a function `x : String → String → Bool`.  Each
-- numbered block of constraints added to the model is embedded as a
-- boolean check on `x`; `feasibleSolution` is their conjunction, i.e. it
-- holds exactly for the solutions the CBC back end may return.  The
-- auxiliary weekend indicator variables `wk_{d}_{week}` are eliminated:
-- the pair of inequalities `sum x >= var` and `sum x <= len * var` forces
-- `var` to equal "the doctor works at least one shift that weekend", so
-- the projection of the solution set onto `x` constrains that derived
-- value directly.  The objective (spread minimization) only selects among
-- feasible solutions and is irrelevant to every claim, so it is not
-- modelled.
-- ---------------------------------------------------------------------

/-- All ordered index pairs i < j of a list, as value pairs, in the order
the double loop `for i, s1 / for j, s2 if j > i` visits them. -/
def ordPairs : List α → List (α × α)
  | [] => []
  | a :: rest => rest.map (fun b => (a, b)) ++ ordPairs rest

/-- Constraint block 2/3: whether a pair (s1 before s2 in list order) is
flagged as overlapping or rest-violating, mirroring `overlap or
rest_violation_forward or rest_violation_backward` (rest gap below
`REST_HOURS`, checked in both temporal orders). -/
def flaggedPair (s1 s2 : Shift) : Bool :=
  shifts_overlap s1.start s1.end_ s2.start s2.end_
  || (decide (s2.start < s1.end_ + REST_HOURS * 60) && decide (s1.start ≤ s2.start))
  || (decide (s1.start < s2.end_ + REST_HOURS * 60) && decide (s2.start ≤ s1.start))

/-- The flagged shift pairs for which `x[d,s1] + x[d,s2] <= 1` is posted. -/
def conflictPairs (shifts : List Shift) : List (Shift × Shift) :=
  (ordPairs shifts).filter (fun p => flaggedPair p.1 p.2)

/-- Constraint block 1: per-shift coverage bounds.  `lpSum` over the
doctor-id list counts entries with multiplicity, hence `countP` over the
doctor list. -/
def coverageOK (doctors : List Doctor) (shifts : List Shift)
    (x : String → String → Bool) : Bool :=
  shifts.all fun s =>
    decide (s.min_doctors ≤ (doctors.countP (fun d => x d.id s.id) : ℤ))
    && decide ((doctors.countP (fun d => x d.id s.id) : ℤ) ≤ s.max_doctors)

/-- Constraint blocks 2/3: for every doctor and flagged pair, not both. -/
def pairsOK (doctors : List Doctor) (shifts : List Shift)
    (x : String → String → Bool) : Bool :=
  doctors.all fun d =>
    (conflictPairs shifts).all fun p => !(x d.id p.1.id && x d.id p.2.id)

/-- Constraint block 4: per-doctor monthly min/max shift count.  The
source guards each bound with `if ... > 0`, so a bound of 0 (or below)
posts no constraint. -/
def loadOK (doctors : List Doctor) (shifts : List Shift)
    (x : String → String → Bool) : Bool :=
  doctors.all fun d =>
    (if 0 < d.min_shifts_per_month then
      decide (d.min_shifts_per_month ≤ (shifts.countP (fun s => x d.id s.id) : ℤ))
     else true)
    && (if 0 < d.max_shifts_per_month then
      decide ((shifts.countP (fun s => x d.id s.id) : ℤ) ≤ d.max_shifts_per_month)
     else true)

/-- Constraint block 5: leave exclusion.  Rows whose doctor id is unknown
are skipped; for a known doctor, a shift whose calendar date lies in the
inclusive interval forces the indicator to 0 (the source's `break` only
avoids emitting the same equality twice). -/
def leaveOK (doctors : List Doctor) (shifts : List Shift)
    (leave : List LeaveRow) (x : String → String → Bool) : Bool :=
  leave.all fun r =>
    !(doctors.any fun d => d.id == r.doctor_external_id)
    || shifts.all fun s =>
        !(decide (r.start_date ≤ dateOf s.start)
          && decide (dateOf s.start ≤ r.end_date))
        || !(x r.doctor_external_id s.id)

/-- The weekend (Sat/Sun) shifts of a given week, in list order:
the entry list of `weekends[(iso_year, iso_week)]`. -/
def weekendShiftsOf (shifts : List Shift) (wk : ℤ) : List Shift :=
  shifts.filter fun s =>
    (weekdayOf (dateOf s.start) == 5 || weekdayOf (dateOf s.start) == 6)
    && (weekKey (dateOf s.start) == wk)

/-- The distinct week keys of the `weekends` map. -/
def weekendWeekKeys (shifts : List Shift) : List ℤ :=
  ((shifts.filter fun s =>
      weekdayOf (dateOf s.start) == 5 || weekdayOf (dateOf s.start) == 6).map
    fun s => weekKey (dateOf s.start)).dedup

/-- Constraint block 6: each doctor works between 1 and 3 distinct
weekends, where "works a weekend" means at least one Sat/Sun shift of
that week is assigned (the eliminated auxiliary indicator's value).  As
in the source, nothing is posted when no weekend shift exists. -/
def weekendLoadOK (doctors : List Doctor) (shifts : List Shift)
    (x : String → String → Bool) : Bool :=
  (weekendWeekKeys shifts).isEmpty
  || doctors.all fun d =>
      decide (1 ≤ (weekendWeekKeys shifts).countP
        (fun wk => (weekendShiftsOf shifts wk).any fun s => x d.id s.id))
      && decide ((weekendWeekKeys shifts).countP
        (fun wk => (weekendShiftsOf shifts wk).any fun s => x d.id s.id) ≤ 3)

/-- The `weekend_nights[wk]['fri'|'sat'|'sun']` slot: the id of the LAST
night shift of that weekday and week in list order (each dict assignment
overwrites the slot), or none. -/
def weekendNightSlot (shifts : List Shift) (wk dow : ℤ) : Option String :=
  ((shifts.filter fun s =>
      is_night_shift s && ((weekdayOf (dateOf s.start) == dow)
        && (weekKey (dateOf s.start) == wk))).map Shift.id).getLast?

/-- The distinct week keys of the `weekend_nights` map (weeks having some
Fri/Sat/Sun night shift). -/
def weekendNightWeeks (shifts : List Shift) : List ℤ :=
  ((shifts.filter fun s =>
      is_night_shift s
      && (weekdayOf (dateOf s.start) == 4 || weekdayOf (dateOf s.start) == 5
          || weekdayOf (dateOf s.start) == 6)).map
    fun s => weekKey (dateOf s.start)).dedup

/-- Constraint block 7: Friday-night implies Saturday-night and
Sunday-night of the same weekend, posted only for complete triplets. -/
def fssOK (doctors : List Doctor) (shifts : List Shift)
    (x : String → String → Bool) : Bool :=
  (weekendNightWeeks shifts).all fun wk =>
    match weekendNightSlot shifts wk 4, weekendNightSlot shifts wk 5,
        weekendNightSlot shifts wk 6 with
    | some fri, some sat, some sun =>
        doctors.all fun d =>
          (!(x d.id fri) || x d.id sat) && (!(x d.id fri) || x d.id sun)
    | _, _, _ => true

/-- Constraint block 8: at most 2 weekday (Mon-Thu) night shifts per
doctor per ISO week.  `weekdayOf` lands in [0, 7), so `<= 3` is exactly
membership in {0, 1, 2, 3}. -/
def weekdayNightOK (doctors : List Doctor) (shifts : List Shift)
    (x : String → String → Bool) : Bool :=
  (((shifts.filter fun s =>
      is_night_shift s && decide (weekdayOf (dateOf s.start) ≤ 3)).map
    fun s => weekKey (dateOf s.start)).dedup).all fun wk =>
    doctors.all fun d =>
      shifts.countP (fun s =>
        is_night_shift s && decide (weekdayOf (dateOf s.start) ≤ 3)
        && (weekKey (dateOf s.start) == wk) && x d.id s.id) ≤ 2

/-- The `night_shift_by_date` map: the LAST night shift of a date in list
order (each later dict write overwrites the earlier one). -/
def nightAt (shifts : List Shift) (day : ℤ) : Option String :=
  ((shifts.filter fun s =>
      is_night_shift s && (dateOf s.start == day)).map Shift.id).getLast?

/-- The distinct calendar dates carrying some night shift. -/
def nightDates (shifts : List Shift) : List ℤ :=
  ((shifts.filter fun s => is_night_shift s).map fun s => dateOf s.start).dedup

/-- Constraint block 9: max 3 consecutive nights.  The source walks the
sorted distinct night dates and posts a constraint for every window of 4
positions whose dates are day-consecutive; four dates d0..d0+3 all carry
night shifts exactly when they are such a window (no further night date
can lie strictly between them), so the windows are enumerated here as
"d0 a night date with d0+1, d0+2, d0+3 also night dates". -/
def consecNightOK (doctors : List Doctor) (shifts : List Shift)
    (x : String → String → Bool) : Bool :=
  (nightDates shifts).all fun d0 =>
    !((nightDates shifts).contains (d0 + 1)
      && (nightDates shifts).contains (d0 + 2)
      && (nightDates shifts).contains (d0 + 3))
    || doctors.all fun d =>
        (([d0, d0 + 1, d0 + 2, d0 + 3] : List ℤ).countP fun dt =>
          match nightAt shifts dt with
          | some sid => x d.id sid
          | none => false) ≤ 3

/-- The full hard-constraint system of `build_and_solve_roster`: a
candidate 0/1 solution `x` satisfies the PuLP model's constraints (so can
be returned by the solve) exactly when this is true. -/
def feasibleSolution (doctors : List Doctor) (shifts : List Shift)
    (leave : List LeaveRow) (x : String → String → Bool) : Bool :=
  coverageOK doctors shifts x && pairsOK doctors shifts x
  && loadOK doctors shifts x && leaveOK doctors shifts leave x
  && weekendLoadOK doctors shifts x && fssOK doctors shifts x
  && weekdayNightOK doctors shifts x && consecNightOK doctors shifts x

/-- Result extraction of core/optimizer.py: for each doctor id in order
and each shift in order, emit an Assignment when the variable is set
(`val > 0.5` on a binary variable means 1). -/
def extractAssignments (doctors : List Doctor) (shifts : List Shift)
    (x : String → String → Bool) : List Assignment :=
  doctors.flatMap fun d =>
    (shifts.filter fun s => x d.id s.id).map fun s => ⟨d.id, s.id⟩

/-- core/optimizer.py `build_and_solve_roster`, with the CBC solve
abstracted as an oracle argument: `none` models an Infeasible (or
timed-out) status, `some x` a solution the solver returned (whose
contract is `feasibleSolution ... x = true`).  Empty doctor or shift
lists return `None` before the model is built (line 58-59). -/
def build_and_solve_roster (doctors : List Doctor) (shifts : List Shift)
    (solver_solution : Option (String → String → Bool)) :
    Option AssignmentResult :=
  if doctors.isEmpty || shifts.isEmpty then none
  else
    match solver_solution with
    | none => none
    | some x => some ⟨extractAssignments doctors shifts x⟩

-- ---------------------------------------------------------------------
-- core/feasibility.py : analyze_feasibility
-- ---------------------------------------------------------------------

/-- Modelled from the spec: `_build_leave_map` is imported by
core/feasibility.py from core.optimizer but is absent from the source
tree; per the spec a leave interval is "(doctor_id, start_date, end_date
(inclusive calendar-date range))" used as a read-only constraint input,
so the map sends a doctor id to that doctor's inclusive date intervals,
in row order. -/
def _build_leave_map (rows : List LeaveRow) : String → List (ℤ × ℤ) :=
  fun docId =>
    (rows.filter fun r => r.doctor_external_id == docId).map
      fun r => (r.start_date, r.end_date)

/-- The per-shift availability count of core/feasibility.py: doctors not
on leave on the shift's calendar date. -/
def availableCount (doctors : List Doctor) (rows : List LeaveRow)
    (s : Shift) : ℕ :=
  doctors.countP fun d =>
    !((_build_leave_map rows d.id).any fun p =>
      decide (p.1 ≤ dateOf s.start) && decide (dateOf s.start ≤ p.2))

/-- The structured report of `analyze_feasibility`.  The human-readable
warning strings are elided; `issue_shifts` holds the shifts for which a
per-shift leave warning is appended, in order (the report's
`per_shift_issues` list has exactly one string per such shift). -/
structure FeasReport where
  feasible : Bool
  total_min_demand : ℤ
  total_max_demand : ℤ
  total_min_capacity : ℤ
  total_max_capacity : ℤ
  night_shift_demand : ℤ
  weekend_shift_demand : ℤ
  num_doctors : ℕ
  issue_shifts : List Shift
deriving DecidableEq

/-- core/feasibility.py `analyze_feasibility`.  On empty input the source
returns a dict holding only `feasible = False` and a warning; that branch
is embedded with the numeric fields zeroed (no claim reads them there).
The night filter uses the start-hour-only rule `s.start.hour >= 21` as
the source does, and `feasible` is the conjunction the source computes on
line 93. -/
def analyze_feasibility (doctors : List Doctor) (shifts : List Shift)
    (leave_rows : List LeaveRow) : FeasReport :=
  if doctors.isEmpty || shifts.isEmpty then
    ⟨false, 0, 0, 0, 0, 0, 0, 0, []⟩
  else
    let total_min_demand := (shifts.map Shift.min_doctors).sum
    let total_max_demand := (shifts.map Shift.max_doctors).sum
    let total_min_capacity := (doctors.map Doctor.min_shifts_per_month).sum
    let total_max_capacity := (doctors.map Doctor.max_shifts_per_month).sum
    let night_shifts := shifts.filter fun s => decide (21 ≤ hourOf s.start)
    let weekend_shifts := shifts.filter Shift.is_weekend
    let issues := shifts.filter fun s =>
      decide ((availableCount doctors leave_rows s : ℤ) < s.min_doctors)
    { feasible := decide (total_min_demand ≤ total_max_capacity) && issues.isEmpty
      total_min_demand := total_min_demand
      total_max_demand := total_max_demand
      total_min_capacity := total_min_capacity
      total_max_capacity := total_max_capacity
      night_shift_demand := (night_shifts.map Shift.min_doctors).sum
      weekend_shift_demand := (weekend_shifts.map Shift.min_doctors).sum
      num_doctors := doctors.length
      issue_shifts := issues }

-- ---------------------------------------------------------------------
-- core/workload_analyzer.py
-- ---------------------------------------------------------------------

/-- core/workload_analyzer.py `WorkloadSummary`. -/
structure WorkloadSummary where
  doctor_id : String
  total_shifts : ℕ
  total_hours : ℚ
  night_shifts : ℕ
  weekend_shifts : ℕ
  consecutive_days : ℕ
  consecutive_nights : ℕ
  rest_violations : ℕ
  burnout_score : ℚ
deriving DecidableEq

/-- The `shift_map` dict comprehension `{s.id: s for s in shifts}`: on
duplicate ids the LAST entry wins. -/
def shiftMapLookup (shifts : List Shift) (sid : String) : Option Shift :=
  (shifts.filter fun s => s.id == sid).getLast?

/-- One iteration of the grouping loop of `analyze_workload`: append the
looked-up shift to the assignment's doctor's bucket.  A doctor id absent
from the doctor-keyed dict, or a shift id absent from `shift_map`,
raises KeyError in the source; that failure is `none`. -/
def docGroupsStep (doctors : List Doctor) (shifts : List Shift)
    (acc : Option (String → List Shift)) (a : Assignment) :
    Option (String → List Shift) :=
  acc.bind fun g =>
    if (doctors.map Doctor.id).contains a.doctor_id then
      match shiftMapLookup shifts a.shift_id with
      | some s => some fun did =>
          if did = a.doctor_id then g did ++ [s] else g did
      | none => none
    else none

/-- The grouping loop of `analyze_workload` over the assignment list,
starting from the empty buckets `{d.id: [] for d in doctors}` (embedded
as the constant-empty function; only doctor-list keys are ever read). -/
def docGroups (doctors : List Doctor) (shifts : List Shift)
    (assignments : List Assignment) : Option (String → List Shift) :=
  assignments.foldl (docGroupsStep doctors shifts) (some fun _ => [])

/-- The streak scan shared by `_compute_consecutive_days` and
`_compute_consecutive_nights`: walk sorted distinct day numbers, tracking
the current run of day-consecutive entries and the best run seen. -/
def streakGo : ℤ → List ℤ → ℕ → ℕ → ℕ
  | _, [], _, best => best
  | prev, d :: tl, consec, best =>
      if d - prev = 1 then streakGo d tl (consec + 1) (max best (consec + 1))
      else streakGo d tl 1 best

/-- Python `sorted(...)` over day numbers. -/
def sortedDays (days : List ℤ) : List ℤ := days.insertionSort (· ≤ ·)

/-- core/workload_analyzer.py `_compute_consecutive_days`: longest run of
consecutive calendar dates among the assigned shifts' start dates. -/
def _compute_consecutive_days (shifts : List Shift) : ℕ :=
  match sortedDays ((shifts.map fun s => dateOf s.start).dedup) with
  | [] => 0
  | d :: tl => streakGo d tl 1 1

/-- core/workload_analyzer.py `_compute_consecutive_nights`: same scan
restricted to shifts with `start.hour >= 21` (this module's night rule). -/
def _compute_consecutive_nights (shifts : List Shift) : ℕ :=
  match sortedDays (((shifts.filter fun s =>
      decide (21 ≤ hourOf s.start)).map fun s => dateOf s.start).dedup) with
  | [] => 0
  | d :: tl => streakGo d tl 1 1

/-- The adjacent-pair scan of `_compute_rest_violations`.  The source
compares `(start - prev_end).total_seconds()/3600 < 11`, i.e. the gap in
minutes is below `11 * 60`. -/
def restGo : Shift → List Shift → ℕ → ℕ
  | _, [], n => n
  | prev, s :: tl, n =>
      restGo s tl (if s.start - prev.end_ < REST_HOURS * 60 then n + 1 else n)

/-- core/workload_analyzer.py `_compute_rest_violations`: count adjacent
pairs (after sorting by end time) with rest gap under 11 hours. -/
def _compute_rest_violations (shifts : List Shift) : ℕ :=
  match shifts.insertionSort (fun a b => a.end_ ≤ b.end_) with
  | [] => 0
  | s :: tl => restGo s tl 0

/-- core/workload_analyzer.py `clamp`. -/
def clamp (x lo hi : ℚ) : ℚ := max lo (min hi x)

/-- Python's `round` ties-to-even on a rational (the source rounds the
score, a float, with `round(score, 2)`; the formula is embedded exactly
over the rationals). -/
def roundHalfEven (q : ℚ) : ℤ :=
  if q - ⌊q⌋ = 1 / 2 then (if ⌊q⌋ % 2 = 0 then ⌊q⌋ else ⌊q⌋ + 1)
  else round q

/-- `round(x, 2)`: round to two decimal places, ties to even. -/
def pyRound2 (q : ℚ) : ℚ := (roundHalfEven (q * 100) : ℚ) / 100

/-- The `hours_factor` local of `_compute_burnout_score`.  `if
contract_hours` is Python truthiness: any nonzero value takes the first
branch. -/
def hoursFactor (hours contract_hours : ℚ) : ℚ :=
  if contract_hours ≠ 0 then clamp ((hours / contract_hours) * 100) 0 100
  else 0

/-- The `consec_days_factor` step function of `_compute_burnout_score`. -/
def consecDaysFactor (consecutive_days : ℤ) : ℚ :=
  if 6 ≤ consecutive_days then 100
  else if consecutive_days = 5 then 75
  else if consecutive_days = 4 then 50
  else 10

/-- The `consec_nights_factor` step function of
`_compute_burnout_score`. -/
def consecNightsFactor (consecutive_nights : ℤ) : ℚ :=
  if 3 ≤ consecutive_nights then 100
  else if consecutive_nights = 2 then 70
  else if consecutive_nights = 1 then 40
  else 10

/-- core/workload_analyzer.py `_compute_burnout_score`: the weighted sum
of the clamped factors, rounded to two decimals. -/
def _compute_burnout_score (hours contract_hours : ℚ)
    (night_shifts weekend_shifts consecutive_days consecutive_nights
      rest_violations : ℤ) (avg_hours : ℚ) : ℚ :=
  pyRound2 (0.25 * hoursFactor hours contract_hours
    + 0.20 * clamp ((night_shifts : ℚ) * 33) 0 100
    + 0.15 * clamp ((weekend_shifts : ℚ) * 33) 0 100
    + 0.15 * consecDaysFactor consecutive_days
    + 0.10 * consecNightsFactor consecutive_nights
    + 0.10 * min ((rest_violations : ℚ) * 25) 100
    + 0.05 * clamp (|hours - avg_hours| * 3) 0 100)

/-- The per-doctor statistics of `analyze_workload`'s first pass, over
the doctor's bucket of assigned shifts. -/
structure RawStats where
  assigned : List Shift
  hours : ℚ
  nights : ℕ
  weekends : ℕ
  consec_days : ℕ
  consec_nights : ℕ
  rest_violations : ℕ

/-- First-pass statistics for one doctor: sort the bucket by start time,
then total hours, night count (`start.hour >= 21`), weekend count, streaks
and rest violations. -/
def rawStatsOf (bucket : List Shift) : RawStats :=
  let assigned := bucket.insertionSort (fun a b => a.start ≤ b.start)
  { assigned := assigned
    hours := (assigned.map Shift.duration_hours).sum
    nights := assigned.countP fun s => decide (21 ≤ hourOf s.start)
    weekends := assigned.countP Shift.is_weekend
    consec_days := _compute_consecutive_days assigned
    consec_nights := _compute_consecutive_nights assigned
    rest_violations := _compute_rest_violations assigned }

/-- core/workload_analyzer.py `analyze_workload`.  Returns `none` where
the source raises KeyError (an assignment referencing an unknown doctor
or shift id); otherwise the dict `{doctor_id: WorkloadSummary}`, whose
insertion order is the doctor-list order of the second pass. -/
def analyze_workload (doctors : List Doctor) (shifts : List Shift)
    (assignments : List Assignment) :
    Option (List (String × WorkloadSummary)) :=
  (docGroups doctors shifts assignments).map fun g =>
    let hours_per_doc := doctors.map fun d => (rawStatsOf (g d.id)).hours
    let avg_hours : ℚ :=
      if hours_per_doc.isEmpty then 0
      else hours_per_doc.sum / (hours_per_doc.length : ℚ)
    doctors.map fun d =>
      let st := rawStatsOf (g d.id)
      (d.id,
        { doctor_id := d.id
          total_shifts := st.assigned.length
          total_hours := st.hours
          night_shifts := st.nights
          weekend_shifts := st.weekends
          consecutive_days := st.consec_days
          consecutive_nights := st.consec_nights
          rest_violations := st.rest_violations
          burnout_score := _compute_burnout_score st.hours
            (d.contract_hours_per_month : ℚ) (st.nights : ℤ) (st.weekends : ℤ)
            (st.consec_days : ℤ) (st.consec_nights : ℤ)
            (st.rest_violations : ℤ) avg_hours })

-- ---------------------------------------------------------------------
-- core/solver.py : generate_naive_roster
-- ---------------------------------------------------------------------

/-- A placeholder doctor for the (unreachable, since the index always
stays below the list length) out-of-range branch of list indexing. -/
def defaultDoctor : Doctor := ⟨"", "", "", none, 0, 0, 0⟩

/-- The inner `while assigned_here < needed and attempts < num_docs * 2`
loop of `generate_naive_roster`; the fuel is the remaining attempt budget
`num_docs * 2 - attempts`, consumed once per iteration.  State:
accumulated assignments, per-doctor shift counts, round-robin index. -/
def naiveLoop (doctors : List Doctor) (sh : Shift) (needed : ℤ) :
    ℕ → ℤ → ℕ → (String → ℤ) → List Assignment →
    List Assignment × (String → ℤ) × ℕ
  | 0, _, docIndex, counts, acc => (acc, counts, docIndex)
  | fuel + 1, assigned_here, docIndex, counts, acc =>
      if assigned_here < needed then
        let doc := doctors.getD docIndex defaultDoctor
        let docIndex := (docIndex + 1) % doctors.length
        let max_shifts : ℤ :=
          if doc.max_shifts_per_month = 0 then 999 else doc.max_shifts_per_month
        if max_shifts ≤ counts doc.id then
          naiveLoop doctors sh needed fuel assigned_here docIndex counts acc
        else
          naiveLoop doctors sh needed fuel (assigned_here + 1) docIndex
            (fun did => if did = doc.id then counts did + 1 else counts did)
            (acc ++ [⟨doc.id, sh.id⟩])
      else (acc, counts, docIndex)

/-- core/solver.py `generate_naive_roster`: round-robin assignment that
ignores rest, overlap and leave.  `sh.min_doctors or 1` is Python
truthiness (0 becomes 1); `doc.max_shifts_per_month or 999` likewise. -/
def generate_naive_roster (doctors : List Doctor) (shifts : List Shift) :
    Roster :=
  if doctors.isEmpty || shifts.isEmpty then ⟨doctors, shifts, []⟩
  else
    let init : List Assignment × (String → ℤ) × ℕ := ([], fun _ => 0, 0)
    let final := shifts.foldl
      (fun st sh =>
        let needed : ℤ := if sh.min_doctors = 0 then 1 else sh.min_doctors
        naiveLoop doctors sh needed (doctors.length * 2) 0 st.2.2 st.2.1 st.1)
      init
    ⟨doctors, shifts, final.1⟩

-- ---------------------------------------------------------------------
-- Derived predicates used by the claim statements
-- ---------------------------------------------------------------------

/-- Date `day` carries a night shift assigned to doctor `docId` in the
assignment list `as` (the property constrained by the consecutive-night
cap): some input shift is a night shift starting on that date and is
assigned to the doctor. -/
def nightAssignedOn (shifts : List Shift) (as : List Assignment)
    (docId : String) (day : ℤ) : Bool :=
  shifts.any fun s =>
    is_night_shift s && (dateOf s.start == day)
    && decide ((⟨docId, s.id⟩ : Assignment) ∈ as)

/-- Input consistency for `analyze_workload`: every assignment references
a doctor id from the doctor list and a shift id from the shift list. -/
def consistentInputs (doctors : List Doctor) (shifts : List Shift)
    (assignments : List Assignment) : Prop :=
  ∀ a ∈ assignments,
    a.doctor_id ∈ doctors.map Doctor.id ∧ a.shift_id ∈ shifts.map Shift.id

-- ---------------------------------------------------------------------
-- Concrete instances used by witnesses and counterexamples.
-- Times are minutes since the epoch; day 0 (minutes 0..1439) is a
-- Monday, so day 3 = Thursday, 4 = Friday, 5 = Saturday, 6 = Sunday of
-- the same ISO week (weekKey 0).
-- ---------------------------------------------------------------------

/-- A doctor with wide load bounds (min 0, max 10). -/
def wDoc : Doctor := ⟨"D1", "W", "MO", none, 160, 0, 10⟩

/-- A second doctor with wide load bounds. -/
def wDoc2 : Doctor := ⟨"D2", "Q", "MO", none, 160, 0, 10⟩

/-- Friday 21:00 - Saturday 07:00 night shift, exactly one doctor. -/
def wN1 : Shift := ⟨"N1", "FriNight", 7020, 7620, false, true, 3, 1, 1⟩

/-- Saturday 21:00 - Sunday 07:00 night shift, exactly one doctor. -/
def wN2 : Shift := ⟨"N2", "SatNight", 8460, 9060, true, true, 3, 1, 1⟩

/-- Sunday 21:00 - Monday 07:00 night shift, exactly one doctor. -/
def wN3 : Shift := ⟨"N3", "SunNight", 9900, 10500, true, true, 3, 1, 1⟩

/-- A complete Friday/Saturday/Sunday weekend-night triplet. -/
def wShifts : List Shift := [wN1, wN2, wN3]

/-- The all-ones solution: the single doctor works every shift. -/
def wX : String → String → Bool := fun _ _ => true

/-- A doctor whose `max_shifts_per_month` is 0 (so the source posts no
upper load constraint for them) . -/
def zDoc : Doctor := ⟨"D1", "Z", "MO", none, 160, 0, 0⟩

/-- Monday 08:00 - 17:00 day shift requiring exactly one doctor. -/
def zShift : Shift := ⟨"S1", "Day", 480, 1020, false, false, 3, 1, 1⟩

/-- Thursday 22:00 - Friday 06:00: a second night shift on the Thursday,
listed BEFORE the canonical one so the date map keeps the other. -/
def cA0 : Shift := ⟨"A0", "ThuNightB", 5640, 6120, false, true, 3, 1, 1⟩

/-- Thursday 21:00 - Friday 07:00 night shift. -/
def cN0 : Shift := ⟨"N0", "ThuNight", 5580, 6180, false, true, 3, 1, 1⟩

/-- Saturday 08:00 - 17:00 day shift. -/
def cSD : Shift := ⟨"SD", "SatDay", 7680, 8220, true, false, 3, 1, 1⟩

/-- Shift set with two night shifts on the Thursday followed by the
weekend-night triplet: the `night_shift_by_date` map keeps only `N0` for
Thursday, so an assignment taking `A0` escapes the 4-consecutive-night
window constraint. -/
def cShifts : List Shift := [cA0, cN0, wN1, wN2, wN3, cSD]

/-- The (unique up to swapping the two doctors) feasible solution of the
`cShifts` instance: D1 takes A0 and the Fri/Sat/Sun nights - nights on 4
consecutive dates - while D2 takes N0 and the Saturday day shift. -/
def cX : String → String → Bool := fun did sid =>
  ((did == "D1")
    && (sid == "A0" || sid == "N1" || sid == "N2" || sid == "N3"))
  || ((did == "D2") && (sid == "N0" || sid == "SD"))

/-- Friday 21:00 - Saturday 07:00 night shift, first of two duplicates. -/
def fF1 : Shift := ⟨"F1", "FriNightA", 7020, 7620, false, true, 3, 1, 1⟩

/-- A second Friday night shift with the same times, listed after `F1`,
so the `weekend_nights` 'fri' slot keeps this one. -/
def fF2 : Shift := ⟨"F2", "FriNightB", 7020, 7620, false, true, 3, 1, 1⟩

/-- Saturday night shift that may be left uncovered (min 0). -/
def fSA : Shift := ⟨"SA", "SatNight", 8460, 9060, true, true, 3, 0, 1⟩

/-- Sunday night shift that may be left uncovered (min 0). -/
def fSU : Shift := ⟨"SU", "SunNight", 9900, 10500, true, true, 3, 0, 1⟩

/-- Sunday 08:00 - 17:00 day shift. -/
def fSD : Shift := ⟨"SD2", "SunDay", 9120, 9660, true, false, 3, 1, 1⟩

/-- Shift set with two Friday night shifts: the bundling rule is only
posted for the last-listed one (`F2`). -/
def fShifts : List Shift := [fF1, fF2, fSA, fSU, fSD]

/-- Feasible solution of the `fShifts` instance: D1 works the Friday
night `F1` and the Sunday day shift, but neither weekend night; D2 works
`F2` and, as bundling demands, the Saturday and Sunday nights. -/
def fX : String → String → Bool := fun did sid =>
  ((did == "D1") && (sid == "F1" || sid == "SD2"))
  || ((did == "D2") && (sid == "F2" || sid == "SA" || sid == "SU"))

/-- A doctor with capacity 5. -/
def nDoc : Doctor := ⟨"D1", "N", "MO", none, 160, 0, 5⟩

/-- A shift demanding two doctors (more than the doctor list offers). -/
def nShift : Shift := ⟨"S1", "Night", 5580, 6180, false, true, 3, 2, 2⟩

-- ---------------------------------------------------------------------
-- Shared lemmas about the embedding
-- ---------------------------------------------------------------------

theorem feasibleSolution_parts {doctors : List Doctor} {shifts : List Shift}
    {leave : List LeaveRow} {x : String → String → Bool}
    (h : feasibleSolution doctors shifts leave x = true) :
    coverageOK doctors shifts x = true ∧ pairsOK doctors shifts x = true
    ∧ loadOK doctors shifts x = true ∧ leaveOK doctors shifts leave x = true
    ∧ weekendLoadOK doctors shifts x = true ∧ fssOK doctors shifts x = true
    ∧ weekdayNightOK doctors shifts x = true
    ∧ consecNightOK doctors shifts x = true := by
  simp only [feasibleSolution, Bool.and_eq_true] at h
  tauto

/-- In a list whose keys `f ·` are nodup, counting elements with the key
of a member `a` and a key-property `q` yields 1 or 0 as `q` holds at that
key. -/
theorem countP_key_of_nodup {α : Type} (f : α → String) (q : String → Bool) :
    ∀ (l : List α), (l.map f).Nodup → ∀ {a : α}, a ∈ l →
      l.countP (fun b => (f b == f a) && q (f b))
        = if q (f a) then 1 else 0 := by
  intro l
  induction l with
  | nil => intro _ a ha; cases ha
  | cons c cs ih =>
    intro hnd a ha
    rw [List.map_cons, List.nodup_cons] at hnd
    rcases List.mem_cons.mp ha with rfl | hmem
    · rw [List.countP_cons]
      have hz : cs.countP (fun b => (f b == f a) && q (f b)) = 0 := by
        rw [List.countP_eq_zero]
        intro b hb
        have : f b ≠ f a := fun hfb => hnd.1 (hfb ▸ List.mem_map_of_mem f hb)
        simp [this]
      simp [hz]
    · have hne : f c ≠ f a := by
        intro hfc
        exact hnd.1 (hfc ▸ List.mem_map_of_mem f hmem)
      rw [List.countP_cons, ih hnd.2 hmem]
      simp [hne]

/-- The extracted assignment list's count for a shift id equals, under
nodup shift ids, the count of doctor entries whose variable is set. -/
theorem countP_extract_by_shift (doctors : List Doctor) (shifts : List Shift)
    (x : String → String → Bool) {s : Shift}
    (hids : (shifts.map Shift.id).Nodup) (hs : s ∈ shifts) :
    (extractAssignments doctors shifts x).countP (fun a => a.shift_id == s.id)
      = doctors.countP (fun d => x d.id s.id) := by
  induction doctors with
  | nil => rfl
  | cons d ds ih =>
    rw [extractAssignments, List.flatMap_cons, List.countP_append]
    rw [extractAssignments] at ih
    rw [ih, List.countP_cons, List.countP_map, List.countP_filter]
    have hkey := countP_key_of_nodup Shift.id (fun k => x d.id k) shifts hids hs
    have : (shifts.countP fun b =>
        ((fun a => a.shift_id == s.id) ∘ fun t => (⟨d.id, t.id⟩ : Assignment)) b
          && x d.id b.id) = if x d.id s.id then 1 else 0 := by
      rw [← hkey]
      rfl
    rw [this]
    omega

/-- No extracted assignment carries a doctor id outside the doctor list. -/
theorem countP_extract_doctor_zero (doctors : List Doctor)
    (shifts : List Shift) (x : String → String → Bool) {did : String}
    (h : did ∉ doctors.map Doctor.id) :
    (extractAssignments doctors shifts x).countP
      (fun a => a.doctor_id == did) = 0 := by
  induction doctors with
  | nil => rfl
  | cons d ds ih =>
    rw [List.map_cons, List.mem_cons, not_or] at h
    rw [extractAssignments, List.flatMap_cons, List.countP_append]
    rw [extractAssignments] at ih
    rw [ih h.2, List.countP_map]
    have : ((shifts.filter fun s => x d.id s.id).countP
        ((fun a => a.doctor_id == did) ∘ fun t => (⟨d.id, t.id⟩ : Assignment)))
          = 0 := by
      rw [List.countP_eq_zero]
      intro b _
      simpa using fun hcontra => h.1 hcontra.symm
    omega

/-- The extracted assignment list's count for a doctor id equals, under
nodup doctor ids, the count of shift entries whose variable is set. -/
theorem countP_extract_by_doctor (doctors : List Doctor)
    (shifts : List Shift) (x : String → String → Bool) {d : Doctor}
    (hids : (doctors.map Doctor.id).Nodup) (hd : d ∈ doctors) :
    (extractAssignments doctors shifts x).countP
        (fun a => a.doctor_id == d.id)
      = shifts.countP (fun s => x d.id s.id) := by
  induction doctors with
  | nil => cases hd
  | cons c cs ih =>
    rw [List.map_cons, List.nodup_cons] at hids
    rw [extractAssignments, List.flatMap_cons, List.countP_append]
    rcases List.mem_cons.mp hd with rfl | hmem
    · have htail : (extractAssignments cs shifts x).countP
          (fun a => a.doctor_id == d.id) = 0 :=
        countP_extract_doctor_zero cs shifts x hids.1
      rw [extractAssignments] at htail
      rw [htail, List.countP_map]
      have : ((shifts.filter fun s => x d.id s.id).countP
          ((fun a => a.doctor_id == d.id) ∘ fun t => (⟨d.id, t.id⟩ : Assignment)))
            = (shifts.filter fun s => x d.id s.id).length := by
        rw [List.countP_eq_length]
        intro b _
        simp
      rw [this, ← List.countP_eq_length_filter]
      omega
    · have hne : c.id ≠ d.id := by
        intro hceq
        exact hids.1 (hceq ▸ List.mem_map_of_mem Doctor.id hmem)
      rw [extractAssignments] at ih
      rw [ih hids.2 hmem, List.countP_map]
      have : ((shifts.filter fun s => x c.id s.id).countP
          ((fun a => a.doctor_id == d.id) ∘ fun t => (⟨c.id, t.id⟩ : Assignment)))
            = 0 := by
        rw [List.countP_eq_zero]
        intro b _
        simpa using hne
      omega

-- ---------------------------------------------------------------------
-- Claim theorems
-- ---------------------------------------------------------------------

/-- C1: whenever `build_and_solve_roster` returns a result, every input
shift's assignment count lies within its staffing bounds
`[min_doctors, max_doctors]` (over the solver's contract: the returned
solution satisfies the constraint system; shift ids are the table's
primary key, hence nodup). -/
theorem optimizer_coverage_bounds (doctors : List Doctor)
    (shifts : List Shift) (leave : List LeaveRow)
    (x : String → String → Bool)
    (hids : (shifts.map Shift.id).Nodup)
    (hf : feasibleSolution doctors shifts leave x = true) :
    ∀ s ∈ shifts,
      s.min_doctors ≤ ((extractAssignments doctors shifts x).countP
          (fun a => a.shift_id == s.id) : ℤ)
      ∧ ((extractAssignments doctors shifts x).countP
          (fun a => a.shift_id == s.id) : ℤ) ≤ s.max_doctors := by
  intro s hs
  have hcov := (feasibleSolution_parts hf).1
  have hbound := List.all_eq_true.mp hcov s hs
  rw [Bool.and_eq_true, decide_eq_true_iff, decide_eq_true_iff] at hbound
  rw [countP_extract_by_shift doctors shifts x hids hs]
  exact hbound

/-- C1 witness: the weekend-night triplet instance with one doctor. -/
theorem optimizer_coverage_bounds_witness :
    ((wShifts.map Shift.id).Nodup
      ∧ feasibleSolution [wDoc] wShifts [] wX = true)
    ∧ ∀ s ∈ wShifts,
        s.min_doctors ≤ ((extractAssignments [wDoc] wShifts wX).countP
            (fun a => a.shift_id == s.id) : ℤ)
        ∧ ((extractAssignments [wDoc] wShifts wX).countP
            (fun a => a.shift_id == s.id) : ℤ) ≤ s.max_doctors :=
  ⟨⟨by decide, by decide⟩,
    optimizer_coverage_bounds [wDoc] wShifts [] wX (by decide) (by decide)⟩

/-- C3 counterexample: a doctor with `max_shifts_per_month = 0` can be
assigned a shift in a solver-returned roster, because the source only
posts the upper load bound when `max_shifts_per_month > 0`; here the
coverage constraint even forces the assignment. -/
theorem optimizer_load_bounds_counterexample :
    feasibleSolution [zDoc] [zShift] [] (fun _ _ => true) = true
    ∧ ¬(((extractAssignments [zDoc] [zShift] (fun _ _ => true)).countP
        (fun a => a.doctor_id == zDoc.id) : ℤ) ≤ zDoc.max_shifts_per_month) := by
  decide

/-- C3 amended: in a returned roster every doctor's assignment count is
at least `min_shifts_per_month` (the posted bound when positive, trivial
otherwise), and at most `max_shifts_per_month` provided
`max_shifts_per_month > 0`; for `max_shifts_per_month ≤ 0` the source
posts no upper bound. -/
theorem optimizer_load_bounds_amended (doctors : List Doctor)
    (shifts : List Shift) (leave : List LeaveRow)
    (x : String → String → Bool)
    (hids : (doctors.map Doctor.id).Nodup)
    (hf : feasibleSolution doctors shifts leave x = true) :
    ∀ d ∈ doctors,
      d.min_shifts_per_month ≤ ((extractAssignments doctors shifts x).countP
          (fun a => a.doctor_id == d.id) : ℤ)
      ∧ (0 < d.max_shifts_per_month →
          ((extractAssignments doctors shifts x).countP
            (fun a => a.doctor_id == d.id) : ℤ) ≤ d.max_shifts_per_month) := by
  intro d hd
  have hload := (feasibleSolution_parts hf).2.2.1
  have hbound := List.all_eq_true.mp hload d hd
  rw [Bool.and_eq_true] at hbound
  rw [countP_extract_by_doctor doctors shifts x hids hd]
  constructor
  · rcases lt_or_le 0 d.min_shifts_per_month with hpos | hnonpos
    · have := hbound.1
      rw [if_pos hpos, decide_eq_true_iff] at this
      exact this
    · have : (0 : ℤ) ≤ (shifts.countP fun s => x d.id s.id : ℤ) := by
        exact_mod_cast Nat.zero_le _
      omega
  · intro hpos
    have := hbound.2
    rw [if_pos hpos, decide_eq_true_iff] at this
    exact this

/-- C3 amended witness: the weekend-night triplet instance. -/
theorem optimizer_load_bounds_amended_witness :
    ((([wDoc] : List Doctor).map Doctor.id).Nodup
      ∧ feasibleSolution [wDoc] wShifts [] wX = true)
    ∧ ∀ d ∈ [wDoc],
        d.min_shifts_per_month ≤ ((extractAssignments [wDoc] wShifts wX).countP
            (fun a => a.doctor_id == d.id) : ℤ)
        ∧ (0 < d.max_shifts_per_month →
            ((extractAssignments [wDoc] wShifts wX).countP
              (fun a => a.doctor_id == d.id) : ℤ) ≤ d.max_shifts_per_month) :=
  ⟨⟨by decide, by decide⟩,
    optimizer_load_bounds_amended [wDoc] wShifts [] wX (by decide) (by decide)⟩

/-- C4 counterexample: with no doctors and no shifts the optimizer
returns `none` - the very value that signals Infeasible - rather than a
distinct assignment-free success value. -/
theorem optimizer_empty_input_counterexample :
    build_and_solve_roster ([] : List Doctor) ([] : List Shift)
        (some fun _ _ => false) = none
    ∧ (none : Option AssignmentResult) ≠ some ⟨[]⟩ :=
  ⟨rfl, by decide⟩

/-- C4 amended: with an empty doctor list or an empty shift list,
`build_and_solve_roster` returns `None` before building the model - the
same outcome it uses to report infeasibility, not a distinct
assignment-free success. -/
theorem optimizer_empty_input_returns_none (doctors : List Doctor)
    (shifts : List Shift) (sol : Option (String → String → Bool))
    (h : doctors = [] ∨ shifts = []) :
    build_and_solve_roster doctors shifts sol = none := by
  rcases h with h | h <;> subst h <;> simp [build_and_solve_roster]

/-- C4 amended witness: empty doctor list with a nonempty shift list. -/
theorem optimizer_empty_input_returns_none_witness :
    (([] : List Doctor) = [] ∨ ([zShift] : List Shift) = [])
    ∧ build_and_solve_roster [] [zShift] (some wX) = none :=
  ⟨Or.inl rfl, optimizer_empty_input_returns_none _ _ _ (Or.inl rfl)⟩

/-- C9: the naive round-robin allocator can emit the same
(doctor, shift) pair twice: with one doctor (below their cap) and a shift
demanding two doctors, the inner loop wraps around and assigns the same
doctor to the same shift again. -/
theorem naive_roster_duplicate_pair :
    2 ≤ (generate_naive_roster [nDoc] [nShift]).assignments.countP
        (fun a => a.doctor_id == "D1" && a.shift_id == "S1") := by
  decide

/-- C7: for nonempty inputs, a `feasible = true` verdict from
`analyze_feasibility` implies that total minimum demand is within total
maximum capacity and that every shift has at least `min_doctors` doctors
not on leave on its date. -/
theorem feasibility_verdict_only_if (doctors : List Doctor)
    (shifts : List Shift) (leave_rows : List LeaveRow)
    (hd : doctors ≠ []) (hs : shifts ≠ [])
    (hfeas : (analyze_feasibility doctors shifts leave_rows).feasible = true) :
    (shifts.map Shift.min_doctors).sum
        ≤ (doctors.map Doctor.max_shifts_per_month).sum
    ∧ ∀ s ∈ shifts,
        s.min_doctors ≤ (availableCount doctors leave_rows s : ℤ) := by
  have hguard : (doctors.isEmpty || shifts.isEmpty) = false := by
    rcases doctors with _ | ⟨d, ds⟩
    · exact absurd rfl hd
    · rcases shifts with _ | ⟨s, ss⟩
      · exact absurd rfl hs
      · rfl
  rw [analyze_feasibility, if_neg (by simp [hguard])] at hfeas
  simp only [Bool.and_eq_true, decide_eq_true_iff] at hfeas
  refine ⟨hfeas.1, ?_⟩
  intro s hs2
  have hempty := hfeas.2
  rw [List.isEmpty_iff, List.filter_eq_nil_iff] at hempty
  have := hempty s hs2
  rw [decide_eq_true_iff] at this
  omega

theorem ordPairs_cases {α : Type} :
    ∀ (l : List α) {a b : α}, a ∈ l → b ∈ l → a ≠ b →
      (a, b) ∈ ordPairs l ∨ (b, a) ∈ ordPairs l := by
  intro l
  induction l with
  | nil => intro a b ha; cases ha
  | cons c cs ih =>
    intro a b ha hb hne
    rcases List.mem_cons.mp ha with rfl | ha2
    · rcases List.mem_cons.mp hb with rfl | hb2
      · exact absurd rfl hne
      · exact Or.inl (by
          rw [ordPairs]
          exact List.mem_append_left _ (List.mem_map_of_mem _ hb2))
    · rcases List.mem_cons.mp hb with rfl | hb2
      · exact Or.inr (by
          rw [ordPairs]
          exact List.mem_append_left _ (List.mem_map_of_mem _ ha2))
      · rcases ih ha2 hb2 hne with h | h
        · exact Or.inl (by rw [ordPairs]; exact List.mem_append_right _ h)
        · exact Or.inr (by rw [ordPairs]; exact List.mem_append_right _ h)

theorem x_true_of_mem_extract {doctors : List Doctor} {shifts : List Shift}
    {x : String → String → Bool} {did sid : String}
    (h : (⟨did, sid⟩ : Assignment) ∈ extractAssignments doctors shifts x) :
    x did sid = true := by
  rw [extractAssignments, List.mem_flatMap] at h
  obtain ⟨d, _, hmem⟩ := h
  rw [List.mem_map] at hmem
  obtain ⟨s, hsf, heq⟩ := hmem
  rw [List.mem_filter] at hsf
  injection heq with h1 h2
  rw [← h1, ← h2]
  exact hsf.2

theorem mem_extract_of_x {doctors : List Doctor} {shifts : List Shift}
    {x : String → String → Bool} {d : Doctor} {s : Shift}
    (hd : d ∈ doctors) (hs : s ∈ shifts) (hx : x d.id s.id = true) :
    (⟨d.id, s.id⟩ : Assignment) ∈ extractAssignments doctors shifts x := by
  rw [extractAssignments, List.mem_flatMap]
  exact ⟨d, hd, List.mem_map_of_mem _ (List.mem_filter.mpr ⟨hs, hx⟩)⟩

theorem shifts_overlap_false_iff {a b c d : ℤ} :
    shifts_overlap a b c d = false ↔ b ≤ c ∨ d ≤ a := by
  simp [shifts_overlap]
  omega

theorem flagged_false_parts {s1 s2 : Shift}
    (h : flaggedPair s1 s2 = false) :
    shifts_overlap s1.start s1.end_ s2.start s2.end_ = false
    ∧ ¬(s2.start < s1.end_ + REST_HOURS * 60 ∧ s1.start ≤ s2.start)
    ∧ ¬(s1.start < s2.end_ + REST_HOURS * 60 ∧ s2.start ≤ s1.start) := by
  rw [flaggedPair, Bool.or_eq_false_iff, Bool.or_eq_false_iff] at h
  obtain ⟨⟨hov, hf⟩, hb⟩ := h
  refine ⟨hov, ?_, ?_⟩
  · intro ⟨hA, hB⟩
    simp [hA, hB] at hf
  · intro ⟨hA, hB⟩
    simp [hA, hB] at hb

theorem not_flagged_of_assigned {doctors : List Doctor}
    {shifts : List Shift} {x : String → String → Bool}
    (hp : pairsOK doctors shifts x = true) {d : Doctor} (hd : d ∈ doctors)
    {s1 s2 : Shift} (hmem : (s1, s2) ∈ ordPairs shifts)
    (h1 : x d.id s1.id = true) (h2 : x d.id s2.id = true) :
    flaggedPair s1 s2 = false := by
  by_contra hflag
  rw [Bool.not_eq_false] at hflag
  have hcp : (s1, s2) ∈ conflictPairs shifts :=
    List.mem_filter.mpr ⟨hmem, hflag⟩
  have := List.all_eq_true.mp (List.all_eq_true.mp hp d hd) (s1, s2) hcp
  simp [h1, h2] at this

theorem rest_conclusions {s1 s2 : Shift}
    (hpos1 : s1.start < s1.end_) (hpos2 : s2.start < s2.end_)
    (hov : shifts_overlap s1.start s1.end_ s2.start s2.end_ = false)
    (hfwd : ¬(s2.start < s1.end_ + REST_HOURS * 60 ∧ s1.start ≤ s2.start))
    (hbwd : ¬(s1.start < s2.end_ + REST_HOURS * 60 ∧ s2.start ≤ s1.start)) :
    s1.start ≠ s2.start
    ∧ (s1.start < s2.start → s1.end_ + REST_HOURS * 60 ≤ s2.start)
    ∧ (s2.start < s1.start → s2.end_ + REST_HOURS * 60 ≤ s1.start) := by
  have hov2 := shifts_overlap_false_iff.mp hov
  have hR : REST_HOURS * 60 = 660 := rfl
  rw [hR] at hfwd hbwd ⊢
  refine ⟨?_, ?_, ?_⟩ <;> omega

/-- C2: whenever `build_and_solve_roster` returns a result, no doctor
holds two distinct shifts that overlap, and between any two of a
doctor's shifts the gap from the earlier one's end to the later one's
start is at least `REST_HOURS` (= 11) hours.  Durations are positive per
the data-model invariant `end > start`. -/
theorem optimizer_no_overlap_and_rest (doctors : List Doctor)
    (shifts : List Shift) (leave : List LeaveRow)
    (x : String → String → Bool)
    (hpos : ∀ s ∈ shifts, s.start < s.end_)
    (hf : feasibleSolution doctors shifts leave x = true) :
    ∀ d ∈ doctors, ∀ s1 ∈ shifts, ∀ s2 ∈ shifts, s1 ≠ s2 →
      (⟨d.id, s1.id⟩ : Assignment) ∈ extractAssignments doctors shifts x →
      (⟨d.id, s2.id⟩ : Assignment) ∈ extractAssignments doctors shifts x →
      shifts_overlap s1.start s1.end_ s2.start s2.end_ = false
      ∧ s1.start ≠ s2.start
      ∧ (s1.start < s2.start → s1.end_ + REST_HOURS * 60 ≤ s2.start)
      ∧ (s2.start < s1.start → s2.end_ + REST_HOURS * 60 ≤ s1.start) := by
  intro d hd s1 hs1 s2 hs2 hne h1 h2
  have hx1 := x_true_of_mem_extract h1
  have hx2 := x_true_of_mem_extract h2
  have hp := (feasibleSolution_parts hf).2.1
  rcases ordPairs_cases shifts hs1 hs2 hne with hpr | hpr
  · obtain ⟨hov, hfwd, hbwd⟩ :=
      flagged_false_parts (not_flagged_of_assigned hp hd hpr hx1 hx2)
    exact ⟨hov, rest_conclusions (hpos s1 hs1) (hpos s2 hs2) hov hfwd hbwd⟩
  · obtain ⟨hov, hfwd, hbwd⟩ :=
      flagged_false_parts (not_flagged_of_assigned hp hd hpr hx2 hx1)
    have hov1 : shifts_overlap s1.start s1.end_ s2.start s2.end_ = false := by
      rw [shifts_overlap_false_iff] at hov ⊢
      tauto
    exact ⟨hov1,
      rest_conclusions (hpos s1 hs1) (hpos s2 hs2) hov1 hbwd hfwd⟩

/-- C2 witness: the weekend-night triplet instance, whose three shifts
are pairwise 14 hours apart. -/
theorem optimizer_no_overlap_and_rest_witness :
    ((∀ s ∈ wShifts, s.start < s.end_)
      ∧ feasibleSolution [wDoc] wShifts [] wX = true)
    ∧ ∀ d ∈ [wDoc], ∀ s1 ∈ wShifts, ∀ s2 ∈ wShifts, s1 ≠ s2 →
        (⟨d.id, s1.id⟩ : Assignment) ∈ extractAssignments [wDoc] wShifts wX →
        (⟨d.id, s2.id⟩ : Assignment) ∈ extractAssignments [wDoc] wShifts wX →
        shifts_overlap s1.start s1.end_ s2.start s2.end_ = false
        ∧ s1.start ≠ s2.start
        ∧ (s1.start < s2.start → s1.end_ + REST_HOURS * 60 ≤ s2.start)
        ∧ (s2.start < s1.start → s2.end_ + REST_HOURS * 60 ≤ s1.start) :=
  ⟨⟨by decide, by decide⟩,
    optimizer_no_overlap_and_rest [wDoc] wShifts [] wX (by decide) (by decide)⟩

/-- C7 witness: one doctor, one day shift, no leave. -/
theorem feasibility_verdict_only_if_witness :
    (([wDoc] : List Doctor) ≠ [] ∧ ([zShift] : List Shift) ≠ []
      ∧ (analyze_feasibility [wDoc] [zShift] []).feasible = true)
    ∧ (([zShift].map Shift.min_doctors).sum
          ≤ ([wDoc].map Doctor.max_shifts_per_month).sum
      ∧ ∀ s ∈ [zShift],
          s.min_doctors ≤ (availableCount [wDoc] [] s : ℤ)) :=
  ⟨⟨by decide, by decide, by decide⟩,
    feasibility_verdict_only_if [wDoc] [zShift] [] (by decide) (by decide)
      (by decide)⟩

-- ---------------------------------------------------------------------
-- Uniqueness of per-date night shifts and the slot/map lookups
-- ---------------------------------------------------------------------

theorem day_eq_of_weekday_weekKey {d1 d2 : ℤ}
    (h1 : weekdayOf d1 = weekdayOf d2) (h2 : weekKey d1 = weekKey d2) :
    d1 = d2 := by
  have e1 : 7 * (d1.ediv 7) + d1.emod 7 = d1 := Int.ediv_add_emod d1 7
  have e2 : 7 * (d2.ediv 7) + d2.emod 7 = d2 := Int.ediv_add_emod d2 7
  simp only [weekdayOf, weekKey] at h1 h2
  omega

/-- If the keys `f ·` of the `pbase`-filtered list are nodup, then a
`pbase && psub` filter whose hits all share the key of a hit `a` returns
exactly `[a]`. -/
theorem filter_sub_singleton {α : Type} (f : α → ℤ) (pbase psub : α → Bool) :
    ∀ (l : List α), ((l.filter pbase).map f).Nodup →
      ∀ {a : α}, a ∈ l → pbase a = true → psub a = true →
        (∀ b ∈ l, pbase b = true → psub b = true → f b = f a) →
        l.filter (fun t => pbase t && psub t) = [a] := by
  intro l
  induction l with
  | nil => intro _ a ha; cases ha
  | cons c cs ih =>
    intro hnd a ha hpa hsa hall
    by_cases hpc : pbase c = true
    · rw [List.filter_cons_of_pos hpc, List.map_cons, List.nodup_cons] at hnd
      rcases List.mem_cons.mp ha with rfl | hmem
      · rw [List.filter_cons_of_pos (by rw [hpa, hsa]; rfl)]
        have hnil : cs.filter (fun t => pbase t && psub t) = [] := by
          rw [List.filter_eq_nil_iff]
          intro b hb hpredb
          rw [Bool.and_eq_true] at hpredb
          have hfb : f b = f a :=
            hall b (List.mem_cons_of_mem _ hb) hpredb.1 hpredb.2
          have : f b ∈ (cs.filter pbase).map f :=
            List.mem_map_of_mem f (List.mem_filter.mpr ⟨hb, hpredb.1⟩)
          rw [hfb] at this
          exact hnd.1 this
        rw [hnil]
      · by_cases hsc : psub c = true
        · exfalso
          have hfc : f c = f a := hall c (List.mem_cons_self c cs) hpc hsc
          have : f a ∈ (cs.filter pbase).map f :=
            List.mem_map_of_mem f (List.mem_filter.mpr ⟨hmem, hpa⟩)
          rw [← hfc] at this
          exact hnd.1 this
        · rw [List.filter_cons_of_neg (by simp [hsc])]
          exact ih hnd.2 hmem hpa hsa
            (fun b hb => hall b (List.mem_cons_of_mem c hb))
    · have hnd2 : ((cs.filter pbase).map f).Nodup := by
        rwa [List.filter_cons_of_neg (by simp [hpc])] at hnd
      have hmem : a ∈ cs := by
        rcases List.mem_cons.mp ha with rfl | h
        · exact absurd hpa hpc
        · exact h
      rw [List.filter_cons_of_neg (by simp [hpc])]
      exact ih hnd2 hmem hpa hsa
        (fun b hb => hall b (List.mem_cons_of_mem c hb))

/-- When each date carries at most one night shift, the
`night_shift_by_date` map at a night shift's date returns that shift. -/
theorem nightAt_eq_of_unique {shifts : List Shift}
    (hnd : ((shifts.filter fun s => is_night_shift s).map
      fun s => dateOf s.start).Nodup)
    {s : Shift} (hs : s ∈ shifts) (hn : is_night_shift s = true) :
    nightAt shifts (dateOf s.start) = some s.id := by
  have hfe : shifts.filter (fun t =>
      is_night_shift t && (dateOf t.start == dateOf s.start)) = [s] := by
    apply filter_sub_singleton (fun t => dateOf t.start)
      (fun t => is_night_shift t) _ shifts hnd hs hn (by simp)
    intro b _ _ hps
    simpa using hps
  rw [nightAt, hfe]
  rfl

/-- When each date carries at most one night shift, the `weekend_nights`
slot of a Fri/Sat/Sun night shift's week and weekday returns that
shift. -/
theorem weekendNightSlot_eq_of_unique {shifts : List Shift}
    (hnd : ((shifts.filter fun s => is_night_shift s).map
      fun s => dateOf s.start).Nodup)
    {s : Shift} (hs : s ∈ shifts) (hn : is_night_shift s = true) :
    weekendNightSlot shifts (weekKey (dateOf s.start))
      (weekdayOf (dateOf s.start)) = some s.id := by
  have hfe : shifts.filter (fun t =>
      is_night_shift t && ((weekdayOf (dateOf t.start) == weekdayOf (dateOf s.start))
        && (weekKey (dateOf t.start) == weekKey (dateOf s.start)))) = [s] := by
    apply filter_sub_singleton (fun t => dateOf t.start)
      (fun t => is_night_shift t) _ shifts hnd hs hn (by simp)
    intro b _ _ hps
    rw [Bool.and_eq_true, beq_iff_eq, beq_iff_eq] at hps
    exact day_eq_of_weekday_weekKey hps.1 hps.2
  rw [weekendNightSlot, hfe]
  rfl

/-- C5 counterexample: a feasible (hence returnable) roster in which
doctor D1 is assigned the Friday night shift `F1`, the same ISO week's
Saturday and Sunday night shifts exist in the input, and D1 is assigned
neither - possible because a second Friday night shift `F2` on the same
date takes over the `weekend_nights['fri']` slot, so the bundling
implication is posted only for `F2`. -/
theorem optimizer_weekend_bundling_counterexample :
    feasibleSolution [wDoc, wDoc2] fShifts [] fX = true
    ∧ fF1 ∈ fShifts ∧ is_night_shift fF1 = true
    ∧ weekdayOf (dateOf fF1.start) = 4
    ∧ fSA ∈ fShifts ∧ is_night_shift fSA = true
    ∧ weekdayOf (dateOf fSA.start) = 5
    ∧ fSU ∈ fShifts ∧ is_night_shift fSU = true
    ∧ weekdayOf (dateOf fSU.start) = 6
    ∧ weekKey (dateOf fSA.start) = weekKey (dateOf fF1.start)
    ∧ weekKey (dateOf fSU.start) = weekKey (dateOf fF1.start)
    ∧ (⟨"D1", fF1.id⟩ : Assignment)
        ∈ extractAssignments [wDoc, wDoc2] fShifts fX
    ∧ (⟨"D1", fSA.id⟩ : Assignment)
        ∉ extractAssignments [wDoc, wDoc2] fShifts fX
    ∧ (⟨"D1", fSU.id⟩ : Assignment)
        ∉ extractAssignments [wDoc, wDoc2] fShifts fX := by
  decide

/-- C5 amended: in a returned roster, if each calendar date carries at
most one night shift of the input, then a doctor assigned a Friday night
shift whose same-ISO-week Saturday and Sunday night shifts exist in the
input is also assigned those two shifts (with several night shifts on
one date, only the last-listed one per weekday slot is bound by the
rule). -/
theorem optimizer_weekend_bundling_amended (doctors : List Doctor)
    (shifts : List Shift) (leave : List LeaveRow)
    (x : String → String → Bool)
    (hnd : ((shifts.filter fun s => is_night_shift s).map
      fun s => dateOf s.start).Nodup)
    (hf : feasibleSolution doctors shifts leave x = true)
    (d : Doctor) (hd : d ∈ doctors) (sF sS sU : Shift)
    (hFm : sF ∈ shifts) (hSm : sS ∈ shifts) (hUm : sU ∈ shifts)
    (hFn : is_night_shift sF = true) (hSn : is_night_shift sS = true)
    (hUn : is_night_shift sU = true)
    (hFd : weekdayOf (dateOf sF.start) = 4)
    (hSd : weekdayOf (dateOf sS.start) = 5)
    (hUd : weekdayOf (dateOf sU.start) = 6)
    (hSw : weekKey (dateOf sS.start) = weekKey (dateOf sF.start))
    (hUw : weekKey (dateOf sU.start) = weekKey (dateOf sF.start))
    (hassigned : (⟨d.id, sF.id⟩ : Assignment)
      ∈ extractAssignments doctors shifts x) :
    (⟨d.id, sS.id⟩ : Assignment) ∈ extractAssignments doctors shifts x
    ∧ (⟨d.id, sU.id⟩ : Assignment) ∈ extractAssignments doctors shifts x := by
  have hslotF := weekendNightSlot_eq_of_unique hnd hFm hFn
  have hslotS := weekendNightSlot_eq_of_unique hnd hSm hSn
  have hslotU := weekendNightSlot_eq_of_unique hnd hUm hUn
  rw [hFd] at hslotF
  rw [hSd, hSw] at hslotS
  rw [hUd, hUw] at hslotU
  have hwkmem : weekKey (dateOf sF.start) ∈ weekendNightWeeks shifts := by
    rw [weekendNightWeeks, List.mem_dedup]
    refine List.mem_map_of_mem _ (List.mem_filter.mpr ⟨hFm, ?_⟩)
    rw [hFn, hFd]
    rfl
  have hfss := (feasibleSolution_parts hf).2.2.2.2.2.1
  have hweek := List.all_eq_true.mp hfss _ hwkmem
  rw [hslotF, hslotS, hslotU] at hweek
  have himp := List.all_eq_true.mp hweek d hd
  rw [Bool.and_eq_true] at himp
  have hxF := x_true_of_mem_extract hassigned
  obtain ⟨himpS, himpU⟩ := himp
  rw [hxF] at himpS himpU
  simp only [Bool.not_true, Bool.false_or] at himpS himpU
  exact ⟨mem_extract_of_x hd hSm himpS, mem_extract_of_x hd hUm himpU⟩

/-- C5 amended witness: the weekend-night triplet instance with one
doctor working the whole bundle. -/
theorem optimizer_weekend_bundling_amended_witness :
    (((wShifts.filter fun s => is_night_shift s).map
        fun s => dateOf s.start).Nodup
      ∧ feasibleSolution [wDoc] wShifts [] wX = true
      ∧ wDoc ∈ [wDoc] ∧ wN1 ∈ wShifts ∧ wN2 ∈ wShifts ∧ wN3 ∈ wShifts
      ∧ is_night_shift wN1 = true ∧ is_night_shift wN2 = true
      ∧ is_night_shift wN3 = true
      ∧ weekdayOf (dateOf wN1.start) = 4 ∧ weekdayOf (dateOf wN2.start) = 5
      ∧ weekdayOf (dateOf wN3.start) = 6
      ∧ weekKey (dateOf wN2.start) = weekKey (dateOf wN1.start)
      ∧ weekKey (dateOf wN3.start) = weekKey (dateOf wN1.start)
      ∧ (⟨wDoc.id, wN1.id⟩ : Assignment)
          ∈ extractAssignments [wDoc] wShifts wX)
    ∧ (⟨wDoc.id, wN2.id⟩ : Assignment) ∈ extractAssignments [wDoc] wShifts wX
    ∧ (⟨wDoc.id, wN3.id⟩ : Assignment)
        ∈ extractAssignments [wDoc] wShifts wX :=
  ⟨⟨by decide, by decide, by decide, by decide, by decide, by decide,
    by decide, by decide, by decide, by decide, by decide, by decide,
    by decide, by decide, by decide⟩,
    optimizer_weekend_bundling_amended [wDoc] wShifts [] wX (by decide)
      (by decide) wDoc (by decide) wN1 wN2 wN3 (by decide) (by decide)
      (by decide) (by decide) (by decide) (by decide) (by decide)
      (by decide) (by decide) (by decide) (by decide) (by decide)⟩

/-- C6 counterexample: a feasible (hence returnable) roster assigning
doctor D1 night shifts on 4 consecutive calendar dates (Thursday through
Sunday) - possible because the Thursday has two night shifts and the
`night_shift_by_date` map keeps only the last-listed one (`N0`), while
D1 works the other (`A0`). -/
theorem optimizer_consecutive_night_counterexample :
    feasibleSolution [wDoc, wDoc2] cShifts [] cX = true
    ∧ nightAssignedOn cShifts
        (extractAssignments [wDoc, wDoc2] cShifts cX) "D1" 3 = true
    ∧ nightAssignedOn cShifts
        (extractAssignments [wDoc, wDoc2] cShifts cX) "D1" 4 = true
    ∧ nightAssignedOn cShifts
        (extractAssignments [wDoc, wDoc2] cShifts cX) "D1" 5 = true
    ∧ nightAssignedOn cShifts
        (extractAssignments [wDoc, wDoc2] cShifts cX) "D1" 6 = true := by
  decide

/-- C6 amended: in a returned roster, if each calendar date carries at
most one night shift of the input, then no doctor is assigned night
shifts on 4 consecutive calendar dates (with several night shifts on a
date, the sliding-window constraint binds only the last-listed night
shift of each date and can be evaded). -/
theorem optimizer_consecutive_night_cap_amended (doctors : List Doctor)
    (shifts : List Shift) (leave : List LeaveRow)
    (x : String → String → Bool)
    (hnd : ((shifts.filter fun s => is_night_shift s).map
      fun s => dateOf s.start).Nodup)
    (hf : feasibleSolution doctors shifts leave x = true)
    (d : Doctor) (hd : d ∈ doctors) (d0 : ℤ) :
    ¬(nightAssignedOn shifts (extractAssignments doctors shifts x)
          d.id d0 = true
      ∧ nightAssignedOn shifts (extractAssignments doctors shifts x)
          d.id (d0 + 1) = true
      ∧ nightAssignedOn shifts (extractAssignments doctors shifts x)
          d.id (d0 + 2) = true
      ∧ nightAssignedOn shifts (extractAssignments doctors shifts x)
          d.id (d0 + 3) = true) := by
  rintro ⟨h0, h1, h2, h3⟩
  have unpack : ∀ dt : ℤ,
      nightAssignedOn shifts (extractAssignments doctors shifts x)
        d.id dt = true →
      ∃ s ∈ shifts, is_night_shift s = true ∧ dateOf s.start = dt
        ∧ x d.id s.id = true := by
    intro dt h
    rw [nightAssignedOn, List.any_eq_true] at h
    obtain ⟨s, hs, hprop⟩ := h
    rw [Bool.and_eq_true, Bool.and_eq_true] at hprop
    obtain ⟨⟨hn, hdt⟩, hmemb⟩ := hprop
    exact ⟨s, hs, hn, by simpa using hdt,
      x_true_of_mem_extract (of_decide_eq_true hmemb)⟩
  obtain ⟨s0, hs0, hn0, hdt0, hx0⟩ := unpack _ h0
  obtain ⟨s1, hs1, hn1, hdt1, hx1⟩ := unpack _ h1
  obtain ⟨s2, hs2, hn2, hdt2, hx2⟩ := unpack _ h2
  obtain ⟨s3, hs3, hn3, hdt3, hx3⟩ := unpack _ h3
  have hmemdates : ∀ t : Shift, t ∈ shifts → is_night_shift t = true →
      dateOf t.start ∈ nightDates shifts := by
    intro t ht hn
    rw [nightDates, List.mem_dedup]
    exact List.mem_map_of_mem _ (List.mem_filter.mpr ⟨ht, hn⟩)
  have hconsec := (feasibleSolution_parts hf).2.2.2.2.2.2.2
  have hall := List.all_eq_true.mp hconsec d0
    (hdt0 ▸ hmemdates s0 hs0 hn0)
  rw [Bool.or_eq_true] at hall
  have hc1 : (nightDates shifts).contains (d0 + 1) = true :=
    List.elem_eq_true_of_mem (hdt1 ▸ hmemdates s1 hs1 hn1)
  have hc2 : (nightDates shifts).contains (d0 + 2) = true :=
    List.elem_eq_true_of_mem (hdt2 ▸ hmemdates s2 hs2 hn2)
  have hc3 : (nightDates shifts).contains (d0 + 3) = true :=
    List.elem_eq_true_of_mem (hdt3 ▸ hmemdates s3 hs3 hn3)
  rcases hall with hneg | hall2
  · rw [hc1, hc2, hc3] at hneg
    simp at hneg
  · have hcap := of_decide_eq_true (List.all_eq_true.mp hall2 d hd)
    have hat0 : nightAt shifts d0 = some s0.id :=
      hdt0 ▸ nightAt_eq_of_unique hnd hs0 hn0
    have hat1 : nightAt shifts (d0 + 1) = some s1.id :=
      hdt1 ▸ nightAt_eq_of_unique hnd hs1 hn1
    have hat2 : nightAt shifts (d0 + 2) = some s2.id :=
      hdt2 ▸ nightAt_eq_of_unique hnd hs2 hn2
    have hat3 : nightAt shifts (d0 + 3) = some s3.id :=
      hdt3 ▸ nightAt_eq_of_unique hnd hs3 hn3
    have hall4 : ∀ dt ∈ ([d0, d0 + 1, d0 + 2, d0 + 3] : List ℤ),
        (match nightAt shifts dt with
          | some sid => x d.id sid
          | none => false) = true := by
      intro dt hdt
      simp only [List.mem_cons, List.not_mem_nil, or_false] at hdt
      rcases hdt with rfl | rfl | rfl | rfl
      · rw [hat0]; exact hx0
      · rw [hat1]; exact hx1
      · rw [hat2]; exact hx2
      · rw [hat3]; exact hx3
    have h4 := List.countP_eq_length.mpr hall4
    rw [h4] at hcap
    simp at hcap

theorem clamp_mono {a b lo hi : ℚ} (h : a ≤ b) :
    clamp a lo hi ≤ clamp b lo hi :=
  max_le_max le_rfl (min_le_min le_rfl h)

theorem roundHalfEven_lt_half {q : ℚ} (h : q - ⌊q⌋ < 1 / 2) :
    roundHalfEven q = ⌊q⌋ := by
  rw [roundHalfEven, if_neg (ne_of_lt h), round_eq]
  rw [Int.floor_eq_iff]
  constructor
  · linarith [Int.floor_le q]
  · linarith

theorem roundHalfEven_gt_half {q : ℚ} (h : 1 / 2 < q - ⌊q⌋) :
    roundHalfEven q = ⌊q⌋ + 1 := by
  rw [roundHalfEven, if_neg (ne_of_gt h), round_eq]
  rw [Int.floor_eq_iff]
  constructor
  · push_cast
    linarith
  · push_cast
    linarith [Int.lt_floor_add_one q]

theorem roundHalfEven_bounds (q : ℚ) :
    ⌊q⌋ ≤ roundHalfEven q ∧ roundHalfEven q ≤ ⌊q⌋ + 1 := by
  rcases lt_trichotomy (q - ⌊q⌋) (1 / 2) with h | h | h
  · rw [roundHalfEven_lt_half h]
    omega
  · rw [roundHalfEven, if_pos h]
    split <;> omega
  · rw [roundHalfEven_gt_half h]
    omega

theorem roundHalfEven_mono {a b : ℚ} (h : a ≤ b) :
    roundHalfEven a ≤ roundHalfEven b := by
  rcases lt_or_le ⌊a⌋ ⌊b⌋ with hfl | hfl
  · have h1 := (roundHalfEven_bounds a).2
    have h2 := (roundHalfEven_bounds b).1
    omega
  · have hfe : ⌊a⌋ = ⌊b⌋ := le_antisymm (Int.floor_le_floor h) hfl
    have hfq : ((⌊a⌋ : ℤ) : ℚ) = ((⌊b⌋ : ℤ) : ℚ) := by exact_mod_cast hfe
    rcases lt_trichotomy (a - ⌊a⌋) (1 / 2) with ha | ha | ha
    · rw [roundHalfEven_lt_half ha, hfe]
      exact (roundHalfEven_bounds b).1
    · rcases lt_trichotomy (b - ⌊b⌋) (1 / 2) with hb | hb | hb
      · have : a = b := le_antisymm h (by linarith)
        rw [this]
      · have : a = b := by linarith
        rw [this]
      · rw [roundHalfEven_gt_half hb, ← hfe]
        exact (roundHalfEven_bounds a).2
    · have hb : 1 / 2 < b - ⌊b⌋ := by linarith
      rw [roundHalfEven_gt_half ha, roundHalfEven_gt_half hb]
      omega

theorem pyRound2_mono {a b : ℚ} (h : a ≤ b) : pyRound2 a ≤ pyRound2 b := by
  rw [pyRound2, pyRound2]
  have := roundHalfEven_mono (by linarith : a * 100 ≤ b * 100)
  have hcast : ((roundHalfEven (a * 100) : ℤ) : ℚ)
      ≤ ((roundHalfEven (b * 100) : ℤ) : ℚ) := by exact_mod_cast this
  linarith

/-- C8 counterexample: with `contract_hours = 100` and fleet average
`avg_hours = 120` (all other statistics zero), raising the doctor's
hours from 100 to 110 LOWERS the burnout score (30.5 to 29): the hours
factor is already clamped at 100 while the fairness term
`|hours - avg| * 3` shrinks. -/
theorem burnout_monotonicity_counterexample :
    (100 : ℚ) ≤ 110
    ∧ _compute_burnout_score 110 100 0 0 0 0 0 120
        < _compute_burnout_score 100 100 0 0 0 0 0 120 := by
  constructor
  · norm_num
  · have h1 : _compute_burnout_score 110 100 0 0 0 0 0 120 = 29 := by
      norm_num [_compute_burnout_score, hoursFactor, consecDaysFactor,
        consecNightsFactor, clamp, pyRound2, roundHalfEven, round_eq]
    have h2 : _compute_burnout_score 100 100 0 0 0 0 0 120 = 61 / 2 := by
      norm_num [_compute_burnout_score, hoursFactor, consecDaysFactor,
        consecNightsFactor, clamp, pyRound2, roundHalfEven, round_eq]
    rw [h1, h2]
    norm_num

/-- C8 amended: the burnout score is nondecreasing in the doctor's hours
(all other statistics and the fleet average held fixed) PROVIDED the
hours stay at or above the fleet average `avg_hours` (and the contract
hours are nonnegative); below the average the fairness term
`|hours - avg_hours|` decreases as hours rise and can outweigh the
(possibly saturated) hours factor. -/
theorem burnout_monotone_in_hours (contract avg h1 h2 : ℚ)
    (n w cd cn rv : ℤ) (hc : 0 ≤ contract) (ha : avg ≤ h1)
    (h12 : h1 ≤ h2) :
    _compute_burnout_score h1 contract n w cd cn rv avg
      ≤ _compute_burnout_score h2 contract n w cd cn rv avg := by
  rw [_compute_burnout_score, _compute_burnout_score]
  apply pyRound2_mono
  have hhf : hoursFactor h1 contract ≤ hoursFactor h2 contract := by
    rw [hoursFactor, hoursFactor]
    by_cases hcz : contract = 0
    · simp [hcz]
    · rw [if_pos hcz, if_pos hcz]
      apply clamp_mono
      have hcpos : 0 < contract := lt_of_le_of_ne hc (Ne.symm hcz)
      have : h1 / contract ≤ h2 / contract :=
        (div_le_div_iff_of_pos_right hcpos).mpr h12
      linarith
  have hff : clamp (|h1 - avg| * 3) 0 100 ≤ clamp (|h2 - avg| * 3) 0 100 := by
    apply clamp_mono
    rw [abs_of_nonneg (by linarith : (0 : ℚ) ≤ h1 - avg),
      abs_of_nonneg (by linarith : (0 : ℚ) ≤ h2 - avg)]
    linarith
  linarith

/-- C8 amended witness: hours 60 then 70 against contract 100 and fleet
average 50. -/
theorem burnout_monotone_in_hours_witness :
    ((0 : ℚ) ≤ 100 ∧ (50 : ℚ) ≤ 60 ∧ (60 : ℚ) ≤ 70)
    ∧ _compute_burnout_score 60 100 0 0 0 0 0 50
        ≤ _compute_burnout_score 70 100 0 0 0 0 0 50 :=
  ⟨⟨by norm_num, by norm_num, by norm_num⟩,
    burnout_monotone_in_hours 100 50 60 70 0 0 0 0 0 (by norm_num)
      (by norm_num) (by norm_num)⟩

/-- C6 amended witness: the weekend-night triplet instance (three night
dates, no window of four). -/
theorem optimizer_consecutive_night_cap_amended_witness :
    (((wShifts.filter fun s => is_night_shift s).map
        fun s => dateOf s.start).Nodup
      ∧ feasibleSolution [wDoc] wShifts [] wX = true ∧ wDoc ∈ [wDoc])
    ∧ ¬(nightAssignedOn wShifts
          (extractAssignments [wDoc] wShifts wX) wDoc.id 4 = true
      ∧ nightAssignedOn wShifts
          (extractAssignments [wDoc] wShifts wX) wDoc.id (4 + 1) = true
      ∧ nightAssignedOn wShifts
          (extractAssignments [wDoc] wShifts wX) wDoc.id (4 + 2) = true
      ∧ nightAssignedOn wShifts
          (extractAssignments [wDoc] wShifts wX) wDoc.id (4 + 3) = true) :=
  ⟨⟨by decide, by decide, by decide⟩,
    optimizer_consecutive_night_cap_amended [wDoc] wShifts [] wX
      (by decide) (by decide) wDoc (by decide) 4⟩

-- ---------------------------------------------------------------------
-- C10: totality of analyze_workload
-- ---------------------------------------------------------------------

theorem shiftMapLookup_isSome {shifts : List Shift} {sid : String} :
    (shiftMapLookup shifts sid).isSome = true
      ↔ sid ∈ shifts.map Shift.id := by
  rw [shiftMapLookup, List.getLast?_isSome]
  constructor
  · intro hne
    obtain ⟨s, hs⟩ := List.exists_mem_of_ne_nil _ hne
    rw [List.mem_filter] at hs
    have : s.id = sid := by simpa using hs.2
    exact this ▸ List.mem_map_of_mem Shift.id hs.1
  · intro hmem hnil
    rw [List.mem_map] at hmem
    obtain ⟨s, hs, hid⟩ := hmem
    rw [List.filter_eq_nil_iff] at hnil
    exact hnil s hs (by simpa using hid)

theorem foldl_docGroupsStep_none (doctors : List Doctor)
    (shifts : List Shift) :
    ∀ l : List Assignment,
      l.foldl (docGroupsStep doctors shifts) none = none := by
  intro l
  induction l with
  | nil => rfl
  | cons a tl ih => rw [List.foldl_cons]; exact ih

theorem docGroups_foldl_isSome_iff (doctors : List Doctor)
    (shifts : List Shift) :
    ∀ (assignments : List Assignment) (g : String → List Shift),
      ((assignments.foldl (docGroupsStep doctors shifts)
          (some g)).isSome = true)
        ↔ ∀ a ∈ assignments, a.doctor_id ∈ doctors.map Doctor.id
            ∧ a.shift_id ∈ shifts.map Shift.id := by
  intro assignments
  induction assignments with
  | nil => simp
  | cons a tl ih =>
    intro g
    rw [List.foldl_cons, List.forall_mem_cons]
    by_cases hd : (doctors.map Doctor.id).contains a.doctor_id
    · cases hlk : shiftMapLookup shifts a.shift_id with
      | some s =>
        have hstep : docGroupsStep doctors shifts (some g) a
            = some fun did =>
                if did = a.doctor_id then g did ++ [s] else g did := by
          rw [docGroupsStep, Option.some_bind, if_pos hd, hlk]
        rw [hstep, ih]
        have hda : a.doctor_id ∈ doctors.map Doctor.id :=
          List.mem_of_elem_eq_true hd
        have hsa : a.shift_id ∈ shifts.map Shift.id :=
          shiftMapLookup_isSome.mp (by rw [hlk]; rfl)
        simp [hda, hsa]
      | none =>
        have hstep : docGroupsStep doctors shifts (some g) a = none := by
          rw [docGroupsStep, Option.some_bind, if_pos hd, hlk]
        rw [hstep, foldl_docGroupsStep_none]
        have hsa : a.shift_id ∉ shifts.map Shift.id := by
          intro hmem
          have := shiftMapLookup_isSome.mpr hmem
          rw [hlk] at this
          cases this
        simp [hsa]
    · have hstep : docGroupsStep doctors shifts (some g) a = none := by
        rw [docGroupsStep, Option.some_bind, if_neg hd]
      rw [hstep, foldl_docGroupsStep_none]
      have hda : a.doctor_id ∉ doctors.map Doctor.id := by
        intro hmem
        exact hd (List.elem_eq_true_of_mem hmem)
      simp [hda]

theorem docGroups_isSome_iff (doctors : List Doctor) (shifts : List Shift)
    (assignments : List Assignment) :
    ((docGroups doctors shifts assignments).isSome = true)
      ↔ consistentInputs doctors shifts assignments :=
  docGroups_foldl_isSome_iff doctors shifts assignments _

/-- C10: `analyze_workload` succeeds exactly on consistent inputs.  When
every assignment's doctor id occurs in the doctor list and its shift id
in the shift list, it returns a summary map keyed by exactly the
doctor-list ids; when any assignment references an unknown doctor or
shift id, the source raises KeyError (embedded as `none`). -/
theorem analyze_workload_totality (doctors : List Doctor)
    (shifts : List Shift) (assignments : List Assignment) :
    (consistentInputs doctors shifts assignments →
      ∃ m, analyze_workload doctors shifts assignments = some m
        ∧ ∀ did, (∃ w, (did, w) ∈ m) ↔ did ∈ doctors.map Doctor.id)
    ∧ (¬consistentInputs doctors shifts assignments →
      analyze_workload doctors shifts assignments = none) := by
  constructor
  · intro hcons
    have hsome : (docGroups doctors shifts assignments).isSome = true :=
      (docGroups_isSome_iff doctors shifts assignments).mpr hcons
    obtain ⟨g, hg⟩ := Option.isSome_iff_exists.mp hsome
    refine ⟨_, by rw [analyze_workload, hg]; rfl, ?_⟩
    intro did
    constructor
    · intro ⟨w, hw⟩
      rw [List.mem_map] at hw
      obtain ⟨d, hdm, heq⟩ := hw
      have : d.id = did := congrArg Prod.fst heq
      exact this ▸ List.mem_map_of_mem Doctor.id hdm
    · intro hmem
      rw [List.mem_map] at hmem
      obtain ⟨d, hdm, hid⟩ := hmem
      subst hid
      exact ⟨_, List.mem_map_of_mem _ hdm⟩
  · intro hncons
    have hnone : docGroups doctors shifts assignments = none := by
      apply Option.not_isSome_iff_eq_none.mp
      intro hsome
      exact hncons ((docGroups_isSome_iff doctors shifts assignments).mp
        (by simpa using hsome))
    rw [analyze_workload, hnone]
    rfl

/-- C10 witness: one doctor, one shift, one consistent assignment. -/
theorem analyze_workload_totality_witness :
    consistentInputs [wDoc] [zShift] [⟨"D1", "S1"⟩]
    ∧ ∃ m, analyze_workload [wDoc] [zShift] [⟨"D1", "S1"⟩] = some m
        ∧ ∀ did, (∃ w, (did, w) ∈ m) ↔ did ∈ [wDoc].map Doctor.id :=
  ⟨by unfold consistentInputs; decide,
    (analyze_workload_totality [wDoc] [zShift] [⟨"D1", "S1"⟩]).1
      (by unfold consistentInputs; decide)⟩

end Rostering
